import Mathlib

/-!
Verification of the DGB identifier-normalization engine and the spreadsheet
merger's key-normalization / matching logic.

The embedding models strings as `List Char`.  Python regular-expression
operations are translated explicitly:
* `re.findall(r"\d", s)` digit counting becomes `digitCount`;
* `re.split(r"[xX]", s, maxsplit=1)` / `s.split(":", 1)` become `spanNot`
  (split at the first character satisfying a predicate);
* `re.match(r"([a-z]+)?(\d+)?", s)` (anchored, both groups greedy and
  optional) becomes a takeWhile of lowercase letters followed by a takeWhile
  of digits at the position right after;
* `re.fullmatch(r"\d+([.,]0+)?", s)` becomes `fullmatchFloatArtifact`;
* `re.sub(r"\s+", " ", s)` becomes `collapseWs`;
* `str.strip()` becomes `pyStrip` (whitespace is modelled by the common
  whitespace characters `' '`, `'\t'`, `'\n'`, `'\r'`, `'\x0b'`, `'\x0c'`
  and the no-break space `' '`; digits are ASCII `0`-`9`).

Source files embedded: `pages/tekstnormalisering.py` (functions
`pad_left_ignoring_letters`, `normalize_token`) and `pages/Sammenfletter.py`
(functions `norm_cell`, `base_key`, and the mapping-build / resolution loop
of `handle_excel_merge`).
-/

namespace DGB

/-- Strings are modelled as lists of characters. -/
abbrev Str := List Char

/-- Converts a Lean string literal to the `List Char` model. -/
def strL (s : String) : Str := s.data

/-- Whitespace test used by `str.strip()` and `\s` (common whitespace
characters plus the no-break space). -/
def isSpace (c : Char) : Bool :=
  decide (c = ' ' ∨ c = '\t' ∨ c = '\n' ∨ c = '\r' ∨ c = '\x0b' ∨ c = '\x0c' ∨ c = ' ')

/-- Drops leading whitespace, as the left half of `str.strip()`. -/
def trimLead (l : Str) : Str := l.dropWhile isSpace

/-- Drops trailing whitespace, as the right half of `str.strip()`. -/
def trimTrail (l : Str) : Str := (l.reverse.dropWhile isSpace).reverse

/-- Python `str.strip()`: removes leading and trailing whitespace. -/
def pyStrip (l : Str) : Str := trimTrail (trimLead l)

/-- Number of digit characters in a string: `len(re.findall(r"\d", part))`. -/
def digitCount (s : Str) : Nat := (s.filter Char.isDigit).length

/-- tekstnormalisering.pad_left_ignoring_letters: prepend zeros until the
number of digits reaches `target_digits`; letters are preserved. -/
def pad_left_ignoring_letters (part : Str) (target_digits : Nat) : Str :=
  if target_digits ≤ digitCount part then part
  else List.replicate (target_digits - digitCount part) '0' ++ part

/-- The separator class `[xX]` of the x-rule. -/
def isSep (c : Char) : Bool := decide (c = 'x' ∨ c = 'X')

/-- The colon character class. -/
def isColon (c : Char) : Bool := decide (c = ':')

/-- Whether a string contains a colon (`":" in s`). -/
def hasColon (s : Str) : Bool := s.any isColon

/-- Splits a string at the first character satisfying `p`: returns the
maximal prefix of characters falsifying `p` and the remainder (which, when
non-empty, starts with the first character satisfying `p`).  This models
`re.split(pattern, s, maxsplit=1)` together with `re.search(pattern, s)`. -/
def spanNot (p : Char → Bool) : Str → Str × Str
  | [] => ([], [])
  | c :: cs =>
    if p c then ([], c :: cs)
    else
      let r := spanNot p cs
      (c :: r.1, r.2)

/-- The x-rule branch of `normalize_token`: when the token contains `x`/`X`
and no colon, split on the first separator and pad each side to 4 digits,
keeping the separator character that was found.  Returns `none` when the
branch does not produce a result (guard failed, or the `len(parts) == 2`
check failed, which cannot happen when a separator is present). -/
def xRule (s : Str) : Option Str :=
  if s.any isSep && !hasColon s then
    match spanNot isSep s with
    | (l, sep :: r) =>
        some (pad_left_ignoring_letters l 4 ++ sep :: pad_left_ignoring_letters r 4)
    | (_, []) => none
  else none

/-- The colon-rule branch of `normalize_token`: when the token contains a
colon, split on the first colon and pad the left side to 5 digits; the right
side is left untouched. -/
def colonRule (s : Str) : Option Str :=
  if hasColon s then
    match spanNot isColon s with
    | (l, _ :: r) => some (pad_left_ignoring_letters l 5 ++ ':' :: r)
    | (_, []) => none
  else none

/-- tekstnormalisering.normalize_token: strip, then try the x-rule, then the
colon rule, else return the stripped token unchanged. -/
def normalize_token (t : Str) : Str :=
  let s := pyStrip t
  if s = [] then s
  else
    match xRule s with
    | some res => res
    | none =>
      match colonRule s with
      | some res => res
      | none => s

/-! ### Spreadsheet merger (Sammenfletter.py) -/

/-- The five normalization toggles threaded through `norm_cell`. -/
structure NormFlags where
  norm_trim : Bool
  norm_lower : Bool
  norm_remove_punct : Bool
  norm_collapse_ws : Bool
  norm_fix_float : Bool

/-- The decimal-separator class `[.,]` of the fix-trailing-float cleanup. -/
def isFloatSep (c : Char) : Bool := decide (c = '.' ∨ c = ',')

/-- Whether `re.fullmatch(r"\d+([.,]0+)?", s)` succeeds: one or more digits,
optionally followed by `.` or `,` and one or more `0` characters. -/
def fullmatchFloatArtifact (s : Str) : Bool :=
  match spanNot isFloatSep s with
  | (a, []) => !a.isEmpty && a.all Char.isDigit
  | (a, _ :: zs) => !a.isEmpty && a.all Char.isDigit && !zs.isEmpty && zs.all (fun c => c == '0')

/-- Worker for `collapseWs`; the flag records whether the previous character
was inside a whitespace run (so only the run's first character emits the
replacement space). -/
def collapseWsAux : Bool → Str → Str
  | _, [] => []
  | prevSpace, c :: cs =>
    if isSpace c then
      if prevSpace then collapseWsAux true cs
      else ' ' :: collapseWsAux true cs
    else c :: collapseWsAux false cs

/-- `re.sub(r"\s+", " ", s)`: every maximal whitespace run becomes one space. -/
def collapseWs (l : Str) : Str := collapseWsAux false l

/-- The no-break space character replaced by `norm_cell`. -/
def nbsp : Char := ' '

/-- Sammenfletter.norm_cell: the configurable cleanup pipeline.  A `none`
input models a NaN cell (`pd.isna`) and yields the empty string.  The steps
run in source order: strip + no-break-space replacement, fix-trailing-float,
lowercasing, punctuation removal (`re.sub(r"[\W_]+", "", s)`, keeping exactly
the alphanumeric characters), and whitespace collapsing. -/
def norm_cell (f : NormFlags) (v : Option Str) : Str :=
  match v with
  | none => []
  | some s0 =>
    let s1 := if f.norm_trim then (pyStrip s0).map (fun c => if c == nbsp then ' ' else c) else s0
    let s2 := if f.norm_fix_float && fullmatchFloatArtifact s1 then (spanNot isFloatSep s1).1 else s1
    let s3 := if f.norm_lower then s2.map Char.toLower else s2
    let s4 := if f.norm_remove_punct then s3.filter Char.isAlphanum else s3
    if f.norm_collapse_ws then collapseWs s4 else s4

/-- Sammenfletter.base_key: `re.match(r"([a-z]+)?(\d+)?", s_norm)` —
the leading run of lowercase ASCII letters (group 1, possibly empty)
followed by the run of digits starting right after that prefix
(group 2, possibly empty). -/
def base_key (s_norm : Str) : Str :=
  let g1 := s_norm.takeWhile Char.isLower
  let rest := s_norm.drop g1.length
  let g2 := rest.takeWhile Char.isDigit
  g1 ++ g2

/-- A first-write-wins key/label mapping, modelled as an association list in
insertion order. -/
abbrev KeyMap := List (Str × Str)

/-- Dictionary lookup: the label of the first entry with the given key. -/
def alookup (m : KeyMap) (k : Str) : Option Str :=
  (m.find? (fun e => decide (e.1 = k))).map (fun e => e.2)

/-- Python `dict.setdefault(k, v)`: insert only when the key is absent. -/
def setdefault (m : KeyMap) (k v : Str) : KeyMap :=
  if (alookup m k).isSome then m else m ++ [(k, v)]

/-- The (key, label) entry a source row contributes to the mapping, if any:
rows with a NaN key are dropped (`dropna(subset=[exp_key_col])`), the key is
normalized with `norm_cell`, and the row is skipped unless the normalized key
is non-empty and the label is not NaN (`if key and pd.notna(title)`). -/
def entryOf (f : NormFlags) (row : Option Str × Option Str) : Option (Str × Str) :=
  match row.1 with
  | none => none
  | some rawk =>
    let key := norm_cell f (some rawk)
    match row.2 with
    | none => none
    | some title => if key = [] then none else some (key, title)

/-- One iteration of the mapping-build loop of `handle_excel_merge`:
`mapping_full.setdefault(key, str(title))` and, when base-key fallback is
enabled, `mapping_base.setdefault(base_key(key), str(title))`. -/
def buildStep (f : NormFlags) (ub : Bool) (m : KeyMap × KeyMap)
    (row : Option Str × Option Str) : KeyMap × KeyMap :=
  match entryOf f row with
  | none => m
  | some (k, t) => (setdefault m.1 k t, if ub then setdefault m.2 (base_key k) t else m.2)

/-- The mapping-build loop of `handle_excel_merge` over the export rows:
returns the pair (`mapping_full`, `mapping_base`). -/
def buildMapping (f : NormFlags) (ub : Bool)
    (rows : List (Option Str × Option Str)) : KeyMap × KeyMap :=
  rows.foldl (buildStep f ub) ([], [])

/-- Per-key two-tier resolution: normalize the raw key, look it up in the
full mapping, and only when that misses and fallback is enabled look the
derived base key up in the base mapping. -/
def resolveKey (f : NormFlags) (ub : Bool) (m : KeyMap × KeyMap)
    (x : Option Str) : Option Str :=
  let nk := norm_cell f x
  match alookup m.1 nk with
  | some t => some t
  | none => if ub then alookup m.2 (base_key nk) else none

/-- The vectorized resolution of `handle_excel_merge`: normalize every raw
key, map the full mapping over the normalized keys, and, when fallback is
enabled, fill the missing positions from the base mapping
(`title_series.loc[missing_mask] = ...`). -/
def resolveBatch (f : NormFlags) (ub : Bool) (m : KeyMap × KeyMap)
    (xs : List (Option Str)) : List (Option Str) :=
  let nks := xs.map (fun x => norm_cell f x)
  let t1 := nks.map (fun k => alookup m.1 k)
  if ub then
    (nks.zip t1).map (fun p =>
      match p.2 with
      | some v => some v
      | none => alookup m.2 (base_key p.1))
  else t1

/-- The statistics of `handle_excel_merge`: `total = len(result)`,
`matched = result[...].notna().sum()`, `unmatched = total - matched`. -/
def mergeStats (f : NormFlags) (ub : Bool) (m : KeyMap × KeyMap)
    (xs : List (Option Str)) : Nat × Nat × Nat :=
  let titles := resolveBatch f ub m xs
  let total := xs.length
  let matched := titles.countP (fun o => o.isSome)
  (total, matched, total - matched)

/-- All five cleanup toggles enabled. -/
def flagsAllOn : NormFlags := ⟨true, true, true, true, true⟩

/-- All five cleanup toggles disabled. -/
def flagsAllOff : NormFlags := ⟨false, false, false, false, false⟩

/-- Modelled from the spec: the spec claims the merger normalizes join keys
by the cleanup sub-steps followed by the x-rule/colon-rule padding of the
Identifier Normalizer; the repository's merger never applies that padding,
so this composed pipeline exists only in the spec's words and is used for
refinement comparison. -/
def specMergeKey (f : NormFlags) (v : Option Str) : Str :=
  normalize_token (norm_cell f v)

/-- Modelled from the spec: "the leading letter-prefix (if any) concatenated
with the first contiguous digit run (if any)" of a key, where the digit run
may occur anywhere in the key — used for refinement comparison with the
source's `base_key`. -/
def specBaseKey (s : Str) : Str :=
  s.takeWhile Char.isAlpha ++ (s.dropWhile (fun c => !c.isDigit)).takeWhile Char.isDigit

example : normalize_token (strL "217x54") = strL "0217x0054" := by decide
example : normalize_token (strL "0217x0054") = strL "0217x0054" := by decide
example : normalize_token (strL "AB1x99") = strL "000AB1x0099" := by decide
example : normalize_token (strL "217:abc") = strL "00217:abc" := by decide
example : normalize_token (strL "12x34x56") = strL "0012x34x56" := by decide
example : normalize_token (strL "   ") = strL "" := by decide
example : normalize_token (strL "ABC123") = strL "ABC123" := by decide
example : normalize_token (strL "x123") = strL "0000x0123" := by decide
example : normalize_token (strL "123x") = strL "0123x0000" := by decide
example : normalize_token (strL "2x:bc") = strL "00002x:bc" := by decide
example : norm_cell flagsAllOn (some (strL "217x54")) = strL "217x54" := by decide
example : norm_cell flagsAllOn (some (strL " 12,00 ")) = strL "12" := by decide
example : base_key (strL "ab12cd34") = strL "ab12" := by decide
example : base_key (strL "A1") = strL "" := by decide
example : base_key (strL "-1") = strL "" := by decide
example : specBaseKey (strL "A1") = strL "A1" := by decide

/-! ### Helper lemmas: digit counting and padding -/

theorem digitCount_append (a b : Str) :
    digitCount (a ++ b) = digitCount a + digitCount b := by
  simp [digitCount, List.filter_append]

theorem digitCount_replicate_zero (n : Nat) :
    digitCount (List.replicate n '0') = n := by
  induction n with
  | zero => rfl
  | succ k ih =>
    simp only [List.replicate_succ, digitCount, List.filter_cons] at *
    simp only [Char.isDigit] at *
    simp_all

theorem le_digitCount_pad (l : Str) (k : Nat) :
    k ≤ digitCount (pad_left_ignoring_letters l k) := by
  unfold pad_left_ignoring_letters
  split
  · assumption
  · rw [digitCount_append, digitCount_replicate_zero]
    omega

theorem pad_eq_self_of_le (l : Str) (k : Nat) (h : k ≤ digitCount l) :
    pad_left_ignoring_letters l k = l := by
  unfold pad_left_ignoring_letters
  rw [if_pos h]

theorem pad_pad (l : Str) (k : Nat) :
    pad_left_ignoring_letters (pad_left_ignoring_letters l k) k
      = pad_left_ignoring_letters l k :=
  pad_eq_self_of_le _ _ (le_digitCount_pad l k)

theorem pad_ne_nil (l : Str) (k : Nat) (hk : 0 < k) :
    pad_left_ignoring_letters l k ≠ [] := by
  unfold pad_left_ignoring_letters
  split
  · intro h
    subst h
    simp [digitCount] at *
    omega
  · intro h
    rcases List.append_eq_nil.mp h with ⟨h1, _⟩
    rw [List.replicate_eq_nil_iff] at h1
    omega

theorem mem_pad {c : Char} {l : Str} {k : Nat}
    (h : c ∈ pad_left_ignoring_letters l k) : c = '0' ∨ c ∈ l := by
  unfold pad_left_ignoring_letters at h
  split at h
  · exact Or.inr h
  · rcases List.mem_append.mp h with h1 | h2
    · exact Or.inl (List.eq_of_mem_replicate h1)
    · exact Or.inr h2

theorem pad_head_not_space (l : Str) (k : Nat) (hk : 0 < k)
    (h : ∀ c r, l = c :: r → isSpace c = false) :
    ∀ c r, pad_left_ignoring_letters l k = c :: r → isSpace c = false := by
  intro c r hp
  unfold pad_left_ignoring_letters at hp
  split at hp
  · exact h c r hp
  · rename_i hlt
    have hz : 0 < k - digitCount l := by omega
    obtain ⟨m, hm⟩ : ∃ m, k - digitCount l = m + 1 := ⟨k - digitCount l - 1, by omega⟩
    rw [hm, List.replicate_succ, List.cons_append] at hp
    have : c = '0' := (List.cons.injEq _ _ _ _ ▸ hp).1.symm
    subst this
    decide

theorem pad_getLast_not_space (l : Str) (k : Nat) (hk : 0 < k)
    (h : ∀ c, l.getLast? = some c → isSpace c = false) :
    ∀ c, (pad_left_ignoring_letters l k).getLast? = some c → isSpace c = false := by
  intro c hp
  unfold pad_left_ignoring_letters at hp
  split at hp
  · exact h c hp
  · cases l with
    | nil =>
      rename_i hlt
      have hz : 0 < k - digitCount ([] : Str) := by
        simp [digitCount] at *
        omega
      obtain ⟨m, hm⟩ : ∃ m, k - digitCount ([] : Str) = m + 1 :=
        ⟨k - digitCount ([] : Str) - 1, by omega⟩
      rw [hm, List.replicate_succ', List.append_nil, List.getLast?_concat] at hp
      have : c = '0' := (Option.some.injEq _ _ ▸ hp).symm
      subst this
      decide
    | cons a as =>
      rw [List.getLast?_append] at hp
      have hne : (a :: as).getLast?.isSome := by
        rw [List.getLast?_isSome]
        simp
      rcases ho : (a :: as).getLast? with _ | d
      · rw [ho] at hne
        simp at hne
      · rw [ho] at hp
        simp only [Option.or_some] at hp
        have : c = d := (Option.some.injEq _ _ ▸ hp).symm
        subst this
        exact h c ho

/-! ### Helper lemmas: spanNot -/

theorem spanNot_eq (p : Char → Bool) (l l1 l2 : Str)
    (h : spanNot p l = (l1, l2)) :
    l = l1 ++ l2 ∧ ∀ x ∈ l1, p x = false := by
  induction l generalizing l1 l2 with
  | nil =>
    simp [spanNot] at h
    rcases h with ⟨h1, h2⟩
    subst h1; subst h2
    simp
  | cons c cs ih =>
    simp only [spanNot] at h
    by_cases hc : p c
    · rw [if_pos hc] at h
      rcases h with ⟨h1, h2⟩
      constructor
      · simp
      · intro x hx
        simp at hx
    · rw [if_neg hc] at h
      rcases hs : spanNot p cs with ⟨a, b⟩
      rw [hs] at h
      rcases h with ⟨h1, h2⟩
      rcases ih a b hs with ⟨ha, hb⟩
      constructor
      · simp [ha]
      · intro x hx
        rcases List.mem_cons.mp hx with hx | hx
        · subst hx
          exact Bool.eq_false_iff.mpr hc
        · exact hb x hx

theorem spanNot_snd_head (p : Char → Bool) (l l1 l2 : Str) (c : Char)
    (h : spanNot p l = (l1, c :: l2)) : p c = true := by
  induction l generalizing l1 l2 with
  | nil => simp [spanNot] at h
  | cons a as ih =>
    simp only [spanNot] at h
    cases ha : p a with
    | true =>
      rw [ha, if_pos rfl] at h
      simp only [Prod.mk.injEq, List.cons.injEq] at h
      rcases h with ⟨_, h2, _⟩
      subst h2
      exact ha
    | false =>
      rw [ha] at h
      simp only [Bool.false_eq_true, if_false] at h
      rcases hs : spanNot p as with ⟨x, y⟩
      rw [hs] at h
      simp only [Prod.mk.injEq] at h
      rcases h with ⟨_, h2⟩
      subst h2
      exact ih x l2 hs

theorem spanNot_append (p : Char → Bool) (a b : Str) (c : Char)
    (ha : ∀ x ∈ a, p x = false) (hc : p c = true) :
    spanNot p (a ++ c :: b) = (a, c :: b) := by
  induction a with
  | nil => simp [spanNot, hc]
  | cons d ds ih =>
    have hd : p d = false := ha d (List.mem_cons_self d ds)
    have ih2 := ih (fun x hx => ha x (List.mem_cons_of_mem d hx))
    simp [spanNot, hd, ih2]

/-! ### Helper lemmas: stripping -/

theorem dropWhile_head (p : Char → Bool) (l : Str) (c : Char) (r : Str)
    (h : l.dropWhile p = c :: r) : p c = false := by
  induction l with
  | nil => simp [List.dropWhile] at h
  | cons a as ih =>
    rw [List.dropWhile_cons] at h
    split at h
    · exact ih h
    · rename_i ha
      have : a = c := (List.cons.injEq _ _ _ _ ▸ h).1
      subst this
      exact Bool.eq_false_iff.mpr ha

theorem dropWhile_eq_self (p : Char → Bool) (l : Str)
    (h : ∀ c r, l = c :: r → p c = false) : l.dropWhile p = l := by
  cases l with
  | nil => rfl
  | cons c cs =>
    rw [List.dropWhile_cons, if_neg]
    rw [h c cs rfl]
    simp

theorem dropWhile_getLast (p : Char → Bool) (l : Str)
    (h : l.dropWhile p ≠ []) : (l.dropWhile p).getLast? = l.getLast? := by
  induction l with
  | nil => simp [List.dropWhile] at h
  | cons c cs ih =>
    rw [List.dropWhile_cons]
    rw [List.dropWhile_cons] at h
    split
    · rename_i hc
      rw [if_pos hc] at h
      have hcs : cs ≠ [] := by
        intro hn
        subst hn
        simp [List.dropWhile] at h
      rw [ih h]
      cases cs with
      | nil => exact absurd rfl hcs
      | cons d ds => rw [List.getLast?_cons_cons]
    · rfl

theorem pyStrip_head (l : Str) (c : Char) (r : Str)
    (h : pyStrip l = c :: r) : isSpace c = false := by
  unfold pyStrip trimTrail trimLead at h
  set m := l.dropWhile isSpace with hm
  set z := m.reverse.dropWhile isSpace with hz
  have hzne : z ≠ [] := by
    intro hn
    rw [hn] at h
    simp at h
  have h1 : z.getLast? = some c := by
    rw [← List.head?_reverse, h]
    rfl
  have h2 : z.getLast? = m.reverse.getLast? := dropWhile_getLast _ _ hzne
  have h3 : m.reverse.getLast? = m.head? := List.getLast?_reverse m
  have h4 : m.head? = some c := by rw [← h3, ← h2, h1]
  cases hmc : m with
  | nil =>
    rw [hmc] at h4
    simp at h4
  | cons d ds =>
    rw [hmc] at h4
    simp only [List.head?_cons, Option.some.injEq] at h4
    subst h4
    exact dropWhile_head isSpace l d ds hmc

theorem pyStrip_getLast (l : Str) (c : Char)
    (h : (pyStrip l).getLast? = some c) : isSpace c = false := by
  unfold pyStrip trimTrail trimLead at h
  rw [List.getLast?_reverse] at h
  cases hz : (l.dropWhile isSpace).reverse.dropWhile isSpace with
  | nil =>
    rw [hz] at h
    simp at h
  | cons d ds =>
    rw [hz] at h
    simp only [List.head?_cons, Option.some.injEq] at h
    exact h ▸ dropWhile_head isSpace _ d ds hz

theorem pyStrip_eq_self (l : Str)
    (h1 : ∀ c r, l = c :: r → isSpace c = false)
    (h2 : ∀ c, l.getLast? = some c → isSpace c = false) : pyStrip l = l := by
  unfold pyStrip trimTrail trimLead
  rw [dropWhile_eq_self isSpace l h1]
  rw [dropWhile_eq_self isSpace l.reverse]
  · exact List.reverse_reverse l
  · intro c r hc
    apply h2
    rw [← List.head?_reverse, hc]
    rfl

theorem pyStrip_idem (l : Str) : pyStrip (pyStrip l) = pyStrip l :=
  pyStrip_eq_self (pyStrip l)
    (fun c r hc => pyStrip_head l c r hc)
    (fun c hc => pyStrip_getLast l c hc)

/-! ### Helper lemmas: rule dispatch of normalize_token -/

theorem xRule_some {s res : Str} (h : xRule s = some res) :
    ∃ l c r, spanNot isSep s = (l, c :: r) ∧ hasColon s = false ∧ isSep c = true ∧
      res = pad_left_ignoring_letters l 4 ++ c :: pad_left_ignoring_letters r 4 := by
  unfold xRule at h
  split at h
  · rename_i hguard
    rcases hs : spanNot isSep s with ⟨l, l2⟩
    rw [hs] at h
    cases l2 with
    | nil => simp at h
    | cons c r =>
      simp only [Option.some.injEq] at h
      refine ⟨l, c, r, rfl, ?_, spanNot_snd_head isSep s l r c hs, h.symm⟩
      rcases Bool.and_eq_true_iff.mp hguard with ⟨_, hnc⟩
      simpa using hnc
  · exact absurd h (by simp)

theorem xRule_eq (s l r : Str) (c : Char)
    (hs : spanNot isSep s = (l, c :: r)) (hc : hasColon s = false) :
    xRule s = some (pad_left_ignoring_letters l 4 ++ c :: pad_left_ignoring_letters r 4) := by
  have hcsep : isSep c = true := spanNot_snd_head isSep s l r c hs
  have hdec := spanNot_eq isSep s l (c :: r) hs
  have hany : s.any isSep = true := by
    rw [List.any_eq_true]
    exact ⟨c, by rw [hdec.1]; simp, hcsep⟩
  unfold xRule
  rw [hany, hc]
  simp only [Bool.not_false, Bool.and_true, if_pos]
  rw [hs]

theorem colonRule_some {s res : Str} (h : colonRule s = some res) :
    ∃ l r, spanNot isColon s = (l, ':' :: r) ∧
      res = pad_left_ignoring_letters l 5 ++ ':' :: r := by
  unfold colonRule at h
  split at h
  · rcases hs : spanNot isColon s with ⟨l, l2⟩
    rw [hs] at h
    cases l2 with
    | nil => simp at h
    | cons c r =>
      simp only [Option.some.injEq] at h
      have hc : isColon c = true := spanNot_snd_head isColon s l r c hs
      have : c = ':' := by
        simpa [isColon] using hc
      subst this
      exact ⟨l, r, rfl, h.symm⟩
  · exact absurd h (by simp)

theorem colonRule_eq (s l r : Str) (c : Char)
    (hs : spanNot isColon s = (l, c :: r)) :
    colonRule s = some (pad_left_ignoring_letters l 5 ++ ':' :: r) := by
  have hcsep : isColon c = true := spanNot_snd_head isColon s l r c hs
  have hdec := spanNot_eq isColon s l (c :: r) hs
  have hany : hasColon s = true := by
    rw [hasColon, List.any_eq_true]
    exact ⟨c, by rw [hdec.1]; simp, hcsep⟩
  unfold colonRule
  rw [hany]
  simp only [if_pos]
  rw [hs]

theorem colonRule_none (s : Str) (h : hasColon s = false) : colonRule s = none := by
  unfold colonRule
  rw [h]
  simp

theorem xRule_none_of_colon (s : Str) (h : hasColon s = true) : xRule s = none := by
  unfold xRule
  rw [h]
  simp

/-- Zeta-free unfolding of `normalize_token`. -/
theorem normalize_token_eq (t : Str) :
    normalize_token t =
      if pyStrip t = [] then pyStrip t
      else
        match xRule (pyStrip t) with
        | some res => res
        | none =>
          match colonRule (pyStrip t) with
          | some res => res
          | none => pyStrip t := rfl

/-- Characterization: when the stripped token contains an `x`/`X` separator
and no colon, `normalize_token` splits at the first separator and pads both
sides to 4 digits — even when one side is empty. -/
theorem normTok_of_x (t l r : Str) (c : Char)
    (hs : spanNot isSep (pyStrip t) = (l, c :: r))
    (hc : hasColon (pyStrip t) = false) :
    normalize_token t
      = pad_left_ignoring_letters l 4 ++ c :: pad_left_ignoring_letters r 4 := by
  have hdec := spanNot_eq isSep (pyStrip t) l (c :: r) hs
  have hne : pyStrip t ≠ [] := by
    rw [hdec.1]
    simp
  rw [normalize_token_eq, if_neg hne, xRule_eq (pyStrip t) l r c hs hc]

/-- Characterization: when the stripped token contains a colon (regardless
of any `x`), `normalize_token` splits at the first colon, pads the left side
to 5 digits and keeps the right side unchanged. -/
theorem normTok_of_colon (t l r : Str)
    (hs : spanNot isColon (pyStrip t) = (l, ':' :: r)) :
    normalize_token t = pad_left_ignoring_letters l 5 ++ ':' :: r := by
  have hdec := spanNot_eq isColon (pyStrip t) l (':' :: r) hs
  have hany : hasColon (pyStrip t) = true := by
    rw [hasColon, List.any_eq_true]
    refine ⟨':', by rw [hdec.1]; simp, by decide⟩
  have hne : pyStrip t ≠ [] := by
    rw [hdec.1]
    simp
  rw [normalize_token_eq, if_neg hne, xRule_none_of_colon _ hany,
    colonRule_eq (pyStrip t) l r ':' hs]

/-- Characterization: when neither rule applies the stripped token is
returned unchanged. -/
theorem normTok_fallback (t : Str)
    (hx : xRule (pyStrip t) = none) (hc : colonRule (pyStrip t) = none) :
    normalize_token t = pyStrip t := by
  rw [normalize_token_eq, hx, hc]
  split <;> rfl

/-! ### Helper lemmas: idempotence of normalize_token -/

theorem getLast?_cons_ne_nil (c : Char) (l : Str) (h : l ≠ []) :
    (c :: l).getLast? = l.getLast? := by
  cases l with
  | nil => exact absurd rfl h
  | cons b bs => rw [List.getLast?_cons_cons]

theorem getLast?_append_ne_nil (a b : Str) (h : b ≠ []) :
    (a ++ b).getLast? = b.getLast? := by
  rw [List.getLast?_append]
  rcases hb : b.getLast? with _ | e
  · rw [List.getLast?_eq_none_iff] at hb
    exact absurd hb h
  · rfl

theorem head_cond_append (a b : Str) (hne : a ≠ [])
    (h : ∀ d rr, a = d :: rr → isSpace d = false) :
    ∀ d rr, a ++ b = d :: rr → isSpace d = false := by
  intro d rr hd
  cases a with
  | nil => exact absurd rfl hne
  | cons x xs =>
    rw [List.cons_append] at hd
    have : x = d := (List.cons.injEq _ _ _ _ ▸ hd).1
    subst this
    exact h x xs rfl

/-- The x-rule's output is a fixed point of `normalize_token`, provided the
split parts come from a stripped token: the left part's head and the right
part's last character are not whitespace, the left part contains no
separator, and no character is a colon. -/
theorem normTok_x_fixpoint (l r : Str) (c : Char)
    (hlsep : ∀ x ∈ l, isSep x = false)
    (hcsep : isSep c = true)
    (hlnc : ∀ x ∈ l, isColon x = false)
    (hcnc : isColon c = false)
    (hrnc : ∀ x ∈ r, isColon x = false)
    (hlhead : ∀ d rr, l = d :: rr → isSpace d = false)
    (hrlast : ∀ d, r.getLast? = some d → isSpace d = false) :
    normalize_token
        (pad_left_ignoring_letters l 4 ++ c :: pad_left_ignoring_letters r 4)
      = pad_left_ignoring_letters l 4 ++ c :: pad_left_ignoring_letters r 4 := by
  have hAne : pad_left_ignoring_letters l 4 ≠ [] := pad_ne_nil l 4 (by omega)
  have hBne : pad_left_ignoring_letters r 4 ≠ [] := pad_ne_nil r 4 (by omega)
  have hstrip :
      pyStrip (pad_left_ignoring_letters l 4 ++ c :: pad_left_ignoring_letters r 4)
        = pad_left_ignoring_letters l 4 ++ c :: pad_left_ignoring_letters r 4 := by
    apply pyStrip_eq_self
    · exact head_cond_append _ _ hAne
        (pad_head_not_space l 4 (by omega) hlhead)
    · intro d hd
      rw [getLast?_append_ne_nil _ _ (by simp)] at hd
      rw [getLast?_cons_ne_nil c _ hBne] at hd
      exact pad_getLast_not_space r 4 (by omega) hrlast d hd
  have hnocolon :
      hasColon (pad_left_ignoring_letters l 4 ++ c :: pad_left_ignoring_letters r 4)
        = false := by
    rw [hasColon, List.any_eq_false]
    intro x hx
    rcases List.mem_append.mp hx with hx | hx
    · rcases mem_pad hx with h0 | hl
      · subst h0
        decide
      · rw [hlnc x hl]
        simp
    · rcases List.mem_cons.mp hx with hx | hx
      · subst hx
        rw [hcnc]
        simp
      · rcases mem_pad hx with h0 | hr
        · subst h0
          decide
        · rw [hrnc x hr]
          simp
  have hspan :
      spanNot isSep (pad_left_ignoring_letters l 4 ++ c :: pad_left_ignoring_letters r 4)
        = (pad_left_ignoring_letters l 4, c :: pad_left_ignoring_letters r 4) := by
    apply spanNot_append
    · intro x hx
      rcases mem_pad hx with h0 | hl
      · subst h0
        decide
      · exact hlsep x hl
    · exact hcsep
  have h2 := normTok_of_x
    (pad_left_ignoring_letters l 4 ++ c :: pad_left_ignoring_letters r 4)
    (pad_left_ignoring_letters l 4) (pad_left_ignoring_letters r 4) c
    (by rw [hstrip]; exact hspan) (by rw [hstrip]; exact hnocolon)
  rw [h2, pad_pad, pad_pad]

/-- The colon rule's output is a fixed point of `normalize_token`, provided
the split parts come from a stripped token. -/
theorem normTok_colon_fixpoint (l r : Str)
    (hlnc : ∀ x ∈ l, isColon x = false)
    (hlhead : ∀ d rr, l = d :: rr → isSpace d = false)
    (hrlast : ∀ d, r.getLast? = some d → isSpace d = false) :
    normalize_token (pad_left_ignoring_letters l 5 ++ ':' :: r)
      = pad_left_ignoring_letters l 5 ++ ':' :: r := by
  have hAne : pad_left_ignoring_letters l 5 ≠ [] := pad_ne_nil l 5 (by omega)
  have hstrip :
      pyStrip (pad_left_ignoring_letters l 5 ++ ':' :: r)
        = pad_left_ignoring_letters l 5 ++ ':' :: r := by
    apply pyStrip_eq_self
    · exact head_cond_append _ _ hAne
        (pad_head_not_space l 5 (by omega) hlhead)
    · intro d hd
      rw [getLast?_append_ne_nil _ _ (by simp)] at hd
      cases hr : r with
      | nil =>
        rw [hr] at hd
        simp only [List.getLast?_singleton, Option.some.injEq] at hd
        subst hd
        decide
      | cons b bs =>
        rw [hr, List.getLast?_cons_cons] at hd
        exact hrlast d (by rw [hr]; exact hd)
  have hspan :
      spanNot isColon (pad_left_ignoring_letters l 5 ++ ':' :: r)
        = (pad_left_ignoring_letters l 5, ':' :: r) := by
    apply spanNot_append
    · intro x hx
      rcases mem_pad hx with h0 | hl
      · subst h0
        decide
      · exact hlnc x hl
    · decide
  have h2 := normTok_of_colon
    (pad_left_ignoring_letters l 5 ++ ':' :: r)
    (pad_left_ignoring_letters l 5) r
    (by rw [hstrip]; exact hspan)
  rw [h2, pad_pad]

/-- C4: `normalize_token` is idempotent: normalizing an already-normalized
token returns it unchanged, for every input string. -/
theorem normalize_token_idempotent (t : Str) :
    normalize_token (normalize_token t) = normalize_token t := by
  by_cases hnil : pyStrip t = []
  · have h1 : normalize_token t = [] := by
      rw [normalize_token_eq, if_pos hnil, hnil]
    rw [h1]
    decide
  · cases hx : xRule (pyStrip t) with
    | some res =>
      obtain ⟨l, c, r, hs, hc, hcsep, hres⟩ := xRule_some hx
      have hdec := spanNot_eq isSep (pyStrip t) l (c :: r) hs
      have hnc : ∀ x ∈ pyStrip t, isColon x = false := by
        intro x hxm
        have := List.any_eq_false.mp hc x hxm
        exact Bool.eq_false_iff.mpr this
      have h1 : normalize_token t
          = pad_left_ignoring_letters l 4 ++ c :: pad_left_ignoring_letters r 4 :=
        normTok_of_x t l r c hs hc
      rw [h1]
      apply normTok_x_fixpoint
      · exact hdec.2
      · exact hcsep
      · intro x hxm
        exact hnc x (by rw [hdec.1]; exact List.mem_append_left _ hxm)
      · exact hnc c (by rw [hdec.1]; simp)
      · intro x hxm
        exact hnc x (by rw [hdec.1]; simp [hxm])
      · intro d rr hd
        apply pyStrip_head t d (rr ++ c :: r)
        rw [hdec.1, hd]
        rfl
      · intro d hd
        apply pyStrip_getLast t d
        have hrne : r ≠ [] := by
          intro hn
          rw [hn] at hd
          simp at hd
        rw [hdec.1, getLast?_append_ne_nil _ _ (by simp),
          getLast?_cons_ne_nil c r hrne, hd]
    | none =>
      cases hcr : colonRule (pyStrip t) with
      | some res =>
        obtain ⟨l, r, hs, hres⟩ := colonRule_some hcr
        have hdec := spanNot_eq isColon (pyStrip t) l (':' :: r) hs
        have h1 : normalize_token t
            = pad_left_ignoring_letters l 5 ++ ':' :: r :=
          normTok_of_colon t l r hs
        rw [h1]
        apply normTok_colon_fixpoint
        · exact hdec.2
        · intro d rr hd
          apply pyStrip_head t d (rr ++ ':' :: r)
          rw [hdec.1, hd]
          rfl
        · intro d hd
          apply pyStrip_getLast t d
          have hrne : r ≠ [] := by
            intro hn
            rw [hn] at hd
            simp at hd
          rw [hdec.1, getLast?_append_ne_nil _ _ (by simp),
            getLast?_cons_ne_nil ':' r hrne, hd]
      | none =>
        have h1 : normalize_token t = pyStrip t := normTok_fallback t hx hcr
        rw [h1]
        have h2 : normalize_token (pyStrip t) = pyStrip (pyStrip t) :=
          normTok_fallback (pyStrip t)
            (by rw [pyStrip_idem]; exact hx)
            (by rw [pyStrip_idem]; exact hcr)
        rw [h2, pyStrip_idem]

/-! ### Helper lemmas: mapping construction -/

theorem alookup_cons (e : Str × Str) (m : KeyMap) (k : Str) :
    alookup (e :: m) k = if e.1 = k then some e.2 else alookup m k := by
  unfold alookup
  rw [List.find?_cons]
  by_cases hp : e.1 = k
  · simp [hp]
  · simp [hp]

theorem alookup_append (m1 m2 : KeyMap) (k : Str) :
    alookup (m1 ++ m2) k = (alookup m1 k).or (alookup m2 k) := by
  unfold alookup
  rw [List.find?_append]
  rcases h1 : m1.find? (fun e => decide (e.1 = k)) with _ | e
  · rw [h1]
    simp
  · rw [h1]
    simp

theorem alookup_setdefault (m : KeyMap) (k v k2 : Str) :
    alookup (setdefault m k v) k2
      = (alookup m k2).or (if k2 = k then some v else none) := by
  unfold setdefault
  by_cases hk : (alookup m k).isSome
  · rw [if_pos hk]
    by_cases he : k2 = k
    · subst he
      rcases ha : alookup m k2 with _ | t
      · rw [ha] at hk
        simp at hk
      · simp
    · simp [he, Option.or_none]
  · rw [if_neg hk, alookup_append]
    congr 1
    rw [alookup_cons]
    by_cases he : k2 = k
    · subst he
      simp
    · rw [if_neg (fun h => he h.symm), if_neg he]
      rfl

/-- Lookup in the full mapping built by the fold equals the label of the
first source row whose entry carries the queried key, modulo the initial
accumulator. -/
theorem buildFold_full (f : NormFlags) (ub : Bool)
    (rows : List (Option Str × Option Str)) (acc : KeyMap × KeyMap) (k : Str) :
    alookup (rows.foldl (buildStep f ub) acc).1 k
      = (alookup acc.1 k).or
          (((rows.filterMap (entryOf f)).find? (fun e => decide (e.1 = k))).map
            (fun e => e.2)) := by
  induction rows generalizing acc with
  | nil => simp [Option.or_none]
  | cons row rest ih =>
    rw [List.foldl_cons, ih]
    cases he : entryOf f row with
    | none =>
      have hstep : buildStep f ub acc row = acc := by
        unfold buildStep
        rw [he]
      rw [hstep, List.filterMap_cons, he]
    | some e =>
      rcases e with ⟨k1, t1⟩
      have hstep : (buildStep f ub acc row).1 = setdefault acc.1 k1 t1 := by
        unfold buildStep
        rw [he]
      rw [hstep, alookup_setdefault, List.filterMap_cons, he]
      rw [List.find?_cons]
      by_cases hk : k1 = k
      · subst hk
        simp [Option.or_assoc]
      · have hdk : decide (((k1, t1) : Str × Str).1 = k) = false := by simp [hk]
        rw [hdk]
        simp [Ne.symm hk, Option.or_none]

/-- Lookup in the base mapping built by the fold (with fallback enabled)
equals the label of the first source row whose entry's base key is the
queried key, modulo the initial accumulator. -/
theorem buildFold_base (f : NormFlags)
    (rows : List (Option Str × Option Str)) (acc : KeyMap × KeyMap) (k : Str) :
    alookup (rows.foldl (buildStep f true) acc).2 k
      = (alookup acc.2 k).or
          (((rows.filterMap (entryOf f)).find? (fun e => decide (base_key e.1 = k))).map
            (fun e => e.2)) := by
  induction rows generalizing acc with
  | nil => simp [Option.or_none]
  | cons row rest ih =>
    rw [List.foldl_cons, ih]
    cases he : entryOf f row with
    | none =>
      have hstep : buildStep f true acc row = acc := by
        unfold buildStep
        rw [he]
      rw [hstep, List.filterMap_cons, he]
    | some e =>
      rcases e with ⟨k1, t1⟩
      have hstep : (buildStep f true acc row).2 = setdefault acc.2 (base_key k1) t1 := by
        unfold buildStep
        rw [he]
        simp
      rw [hstep, alookup_setdefault, List.filterMap_cons, he]
      rw [List.find?_cons]
      by_cases hk : base_key k1 = k
      · subst hk
        simp [Option.or_assoc]
      · have hdk : decide (base_key ((k1, t1) : Str × Str).1 = k) = false := by
          simp [hk]
        rw [hdk]
        simp [Ne.symm hk, Option.or_none]

theorem drop_length_takeWhile (p : Char → Bool) (s : Str) :
    s.drop (s.takeWhile p).length = s.dropWhile p := by
  induction s with
  | nil => rfl
  | cons c cs ih =>
    rw [List.takeWhile_cons, List.dropWhile_cons]
    by_cases hc : p c
    · simp [hc, ih]
    · simp [hc]

theorem resolveBatch_eq_map (f : NormFlags) (ub : Bool) (m : KeyMap × KeyMap)
    (xs : List (Option Str)) :
    resolveBatch f ub m xs = xs.map (resolveKey f ub m) := by
  unfold resolveBatch
  cases ub with
  | true =>
    simp only [if_pos, List.map_map]
    rw [List.zip_map' (fun x => norm_cell f x)
      ((fun k => alookup m.1 k) ∘ fun x => norm_cell f x) xs, List.map_map]
    apply List.map_congr_left
    intro x _
    rfl
  | false =>
    simp only [Bool.false_eq_true, if_false]
    rw [List.map_map]
    apply List.map_congr_left
    intro x _
    unfold resolveKey
    rcases h : alookup m.1 (norm_cell f x) with _ | t
    · simp [Function.comp, h]
    · simp [Function.comp, h]

theorem resolveKey_miss (f : NormFlags) (m : KeyMap × KeyMap) (q : Option Str)
    (h1 : alookup m.1 (norm_cell f q) = none) :
    resolveKey f true m q = alookup m.2 (base_key (norm_cell f q)) := by
  show (match alookup m.1 (norm_cell f q) with
    | some t => some t
    | none =>
      if true = true then alookup m.2 (base_key (norm_cell f q)) else none)
    = alookup m.2 (base_key (norm_cell f q))
  rw [h1]
  rfl

/-! ### Claim theorems -/

/-- C2 (counterexample): the claim predicts `normalize("AB1x99") = "AB01x0099"`
(zeros inserted immediately before the digit run); the code instead prepends
zeros at the very front of the part, so the predicted equality is false. -/
theorem normalize_token_pad_position_cex :
    normalize_token (strL "AB1x99") ≠ strL "AB01x0099" := by decide

/-- C2 (amended): for every part and target width, the padding step inserts
its leading zeros at the very front of the part — ahead of any letters, not
immediately before the digit run — so `normalize("AB1x99")` equals
`"000AB1x0099"`. -/
theorem normalize_token_pad_position :
    (∀ (part : Str) (target : Nat), digitCount part < target →
        pad_left_ignoring_letters part target
          = List.replicate (target - digitCount part) '0' ++ part) ∧
    normalize_token (strL "AB1x99") = strL "000AB1x0099" := by
  refine ⟨?_, by decide⟩
  intro part target h
  unfold pad_left_ignoring_letters
  rw [if_neg (by omega)]

/-- Witness for C2's amended theorem at the part `"AB1"` of the spec's own
example: its 3 zeros land as a prefix of the whole part, before the
letters. -/
theorem normalize_token_pad_position_witness :
    pad_left_ignoring_letters (strL "AB1") 4
      = List.replicate (4 - digitCount (strL "AB1")) '0' ++ strL "AB1" :=
  normalize_token_pad_position.1 (strL "AB1") 4 (by decide)

/-- C3 (counterexample): the claim predicts that a token like `"x123"`
(empty left part) escapes the x-rule and is returned unchanged; in the code
`re.split` with `maxsplit=1` still yields two parts (one empty), the rule
applies, and the empty side is padded to `"0000"`. -/
theorem normalize_token_empty_side_cex :
    normalize_token (strL "x123") ≠ strL "x123" := by decide

/-- C3 (amended): whenever the stripped token contains an `x`/`X` and no
colon, the x-rule applies — even when the part on one side of the first
separator is empty — and both sides are padded to 4 digits. -/
theorem normalize_token_x_always_applies (t l r : Str) (c : Char)
    (hs : spanNot isSep (pyStrip t) = (l, c :: r))
    (hc : hasColon (pyStrip t) = false) :
    normalize_token t
      = pad_left_ignoring_letters l 4 ++ c :: pad_left_ignoring_letters r 4 :=
  normTok_of_x t l r c hs hc

/-- Witness for C3's amended theorem at the concrete tokens `"x123"` and
`"123x"` whose left resp. right part is empty. -/
theorem normalize_token_x_always_applies_witness :
    normalize_token (strL "x123") = strL "0000x0123" ∧
    normalize_token (strL "123x") = strL "0123x0000" :=
  ⟨(normalize_token_x_always_applies (strL "x123") [] (strL "123") 'x'
      (by decide) (by decide)).trans (by decide),
   (normalize_token_x_always_applies (strL "123x") (strL "123") [] 'x'
      (by decide) (by decide)).trans (by decide)⟩

/-- C4: `normalize_token` is idempotent: for every input string `t`,
`normalize(normalize(t)) = normalize(t)`. -/
theorem normalize_token_idem (t : Str) :
    normalize_token (normalize_token t) = normalize_token t :=
  normalize_token_idempotent t

/-- C5: `pad_left_ignoring_letters` returns the part unchanged when the
number of digit characters anywhere in it already reaches the target, and
otherwise prepends exactly `target - count` zero characters at the very
front, leaving every original character in place; consequently
`normalize("217x54") = "0217x0054"`. -/
theorem pad_left_ignoring_letters_spec :
    (∀ part target, target ≤ digitCount part →
        pad_left_ignoring_letters part target = part) ∧
    (∀ part target, digitCount part < target →
        pad_left_ignoring_letters part target
          = List.replicate (target - digitCount part) '0' ++ part) ∧
    normalize_token (strL "217x54") = strL "0217x0054" := by
  refine ⟨?_, ?_, by decide⟩
  · intro part target h
    exact pad_eq_self_of_le part target h
  · intro part target h
    unfold pad_left_ignoring_letters
    rw [if_neg (by omega)]

/-- Witness for C5 at concrete parts: `"0217"` already has 4 digits and is
returned unchanged; `"ab1"` has 1 digit and gets 3 zeros prepended at the
very front, ahead of its letters. -/
theorem pad_left_ignoring_letters_spec_witness :
    pad_left_ignoring_letters (strL "0217") 4 = strL "0217" ∧
    pad_left_ignoring_letters (strL "ab1") 4
      = List.replicate (4 - digitCount (strL "ab1")) '0' ++ strL "ab1" :=
  ⟨pad_left_ignoring_letters_spec.1 (strL "0217") 4 (by decide),
   pad_left_ignoring_letters_spec.2.1 (strL "ab1") 4 (by decide)⟩

/-- C6: for every token whose stripped form contains a colon — including
tokens that also contain `x`/`X`, since the x-rule is guarded by the absence
of a colon — `normalize_token` splits on the first colon, pads the left side
to 5 digits, and returns it followed by the colon and the unaltered right
side. -/
theorem normalize_token_colon_spec (t l r : Str)
    (hs : spanNot isColon (pyStrip t) = (l, ':' :: r)) :
    normalize_token t = pad_left_ignoring_letters l 5 ++ ':' :: r :=
  normTok_of_colon t l r hs

/-- Witness for C6: the spec example `"217:abc"` pads to `"00217:abc"`, and a
token `"2x:bc"` containing both `x` and a colon is handled by the colon rule
(the `x` stays inside the padded left part). -/
theorem normalize_token_colon_spec_witness :
    normalize_token (strL "217:abc") = strL "00217:abc" ∧
    normalize_token (strL "2x:bc") = strL "00002x:bc" :=
  ⟨(normalize_token_colon_spec (strL "217:abc") (strL "217") (strL "abc")
      (by decide)).trans (by decide),
   (normalize_token_colon_spec (strL "2x:bc") (strL "2x") (strL "bc")
      (by decide)).trans (by decide)⟩

/-- C1 (counterexample): the claim predicts that merger join keys carry the
x-rule/colon-rule zero padding; with every cleanup toggle enabled the source
row key `"217x54"` is inserted under the unpadded key `"217x54"`, and the
padded key `"0217x0054"` demanded by the spec pipeline is absent from the
mapping. -/
theorem merge_key_unpadded_cex :
    norm_cell flagsAllOn (some (strL "217x54")) = strL "217x54" ∧
    specMergeKey flagsAllOn (some (strL "217x54")) = strL "0217x0054" ∧
    alookup (buildMapping flagsAllOn true
        [(some (strL "217x54"), some (strL "T"))]).1 (strL "0217x0054") = none ∧
    alookup (buildMapping flagsAllOn true
        [(some (strL "217x54"), some (strL "T"))]).1 (strL "217x54")
      = some (strL "T") := by
  decide

/-- C1 (amended): the merger normalizes both sides of the join with the
enabled cleanup sub-steps only (`norm_cell`), never applying the
x-rule/colon-rule padding: every full-mapping lookup over an arbitrary
source dataset is characterized by the `norm_cell`-keyed row entries; a row
with a non-empty cleaned key contributes exactly its `norm_cell` image as
key; a resolved query is looked up in the full mapping under exactly
`norm_cell` of the raw query, with `base_key` of that same image as the
fallback key; and concretely a query `"217x54"` misses a mapping keyed by
the padded `"0217x0054"` but hits one keyed by the unpadded `"217x54"`. -/
theorem merge_normalization_cleanup_only :
    (∀ (f : NormFlags) (ub : Bool) (rows : List (Option Str × Option Str)) (k : Str),
      alookup (buildMapping f ub rows).1 k
        = ((rows.filterMap (entryOf f)).find?
            (fun e => decide (e.1 = k))).map (fun e => e.2)) ∧
    (∀ (f : NormFlags) (raw title : Str), norm_cell f (some raw) ≠ [] →
      entryOf f (some raw, some title) = some (norm_cell f (some raw), title)) ∧
    (∀ (f : NormFlags) (ub : Bool) (m : KeyMap × KeyMap) (q : Option Str),
      resolveBatch f ub m [q]
        = [match alookup m.1 (norm_cell f q) with
           | some t => some t
           | none => if ub then alookup m.2 (base_key (norm_cell f q)) else none]) ∧
    resolveBatch flagsAllOn true ([(strL "0217x0054", strL "T")], ([] : KeyMap))
        [some (strL "217x54")] = [none] ∧
    resolveBatch flagsAllOn true ([(strL "217x54", strL "T")], ([] : KeyMap))
        [some (strL "217x54")] = [some (strL "T")] := by
  refine ⟨?_, ?_, ?_, by decide, by decide⟩
  · intro f ub rows k
    rw [buildMapping, buildFold_full]
    have hacc : alookup (([], []) : KeyMap × KeyMap).1 k = none := rfl
    rw [hacc, Option.none_or]
  · intro f raw title h
    unfold entryOf
    simp [h]
  · intro f ub m q
    rw [resolveBatch_eq_map]
    rfl

/-- Witness for C1's amended theorem at the cleanup-normalized key
`"217x54"`: the single-row mapping carries the unpadded key, the row's entry
is its `norm_cell` image, and resolving the same raw query against the built
mapping succeeds through that unpadded key. -/
theorem merge_normalization_cleanup_only_witness :
    alookup (buildMapping flagsAllOn true
        [(some (strL "217x54"), some (strL "T"))]).1 (strL "217x54")
      = some (strL "T") ∧
    entryOf flagsAllOn (some (strL "217x54"), some (strL "T"))
      = some (strL "217x54", strL "T") ∧
    resolveBatch flagsAllOn true
        (buildMapping flagsAllOn true [(some (strL "217x54"), some (strL "T"))])
        [some (strL "217x54")] = [some (strL "T")] :=
  ⟨(merge_normalization_cleanup_only.1 flagsAllOn true
      [(some (strL "217x54"), some (strL "T"))] (strL "217x54")).trans (by decide),
   (merge_normalization_cleanup_only.2.1 flagsAllOn (strL "217x54") (strL "T")
      (by decide)).trans (by decide),
   (merge_normalization_cleanup_only.2.2.1 flagsAllOn true
      (buildMapping flagsAllOn true [(some (strL "217x54"), some (strL "T"))])
      (some (strL "217x54"))).trans (by decide)⟩

/-- C7: mapping construction is first-write-wins, both for the full mapping
(any fallback setting) and for the base mapping (fallback enabled): when an
earlier row and a later row produce the same (base) key, lookup returns the
earlier row's label, provided no row before the earlier one produced that
key. -/
theorem buildMapping_first_write_wins :
    (∀ (f : NormFlags) (ub : Bool) (pre mid post : List (Option Str × Option Str))
        (r1 r2 : Option Str × Option Str) (k t1 t2 : Str),
      entryOf f r1 = some (k, t1) →
      entryOf f r2 = some (k, t2) →
      (∀ r ∈ pre, ∀ e, entryOf f r = some e → e.1 ≠ k) →
      alookup (buildMapping f ub (pre ++ (r1 :: (mid ++ (r2 :: post))))).1 k = some t1) ∧
    (∀ (f : NormFlags) (pre mid post : List (Option Str × Option Str))
        (r1 r2 : Option Str × Option Str) (k1 k2 t1 t2 b : Str),
      entryOf f r1 = some (k1, t1) →
      entryOf f r2 = some (k2, t2) →
      base_key k1 = b → base_key k2 = b →
      (∀ r ∈ pre, ∀ e, entryOf f r = some e → base_key e.1 ≠ b) →
      alookup (buildMapping f true (pre ++ (r1 :: (mid ++ (r2 :: post))))).2 b = some t1) := by
  constructor
  · intro f ub pre mid post r1 r2 k t1 t2 h1 h2 hpre
    rw [buildMapping, buildFold_full]
    have hacc : alookup (([], []) : KeyMap × KeyMap).1 k = none := rfl
    rw [hacc, Option.none_or]
    rw [List.filterMap_append, List.find?_append]
    have hA : ((pre.filterMap (entryOf f)).find? (fun e => decide (e.1 = k))) = none := by
      rw [List.find?_eq_none]
      intro x hx
      rw [List.mem_filterMap] at hx
      obtain ⟨r, hr, he⟩ := hx
      simp [hpre r hr x he]
    rw [hA, Option.none_or, List.filterMap_cons, h1, List.find?_cons]
    have hdk : decide (((k, t1) : Str × Str).1 = k) = true := by simp
    rw [hdk]
    rfl
  · intro f pre mid post r1 r2 k1 k2 t1 t2 b h1 h2 hb1 hb2 hpre
    rw [buildMapping, buildFold_base]
    have hacc : alookup (([], []) : KeyMap × KeyMap).2 b = none := rfl
    rw [hacc, Option.none_or]
    rw [List.filterMap_append, List.find?_append]
    have hA : ((pre.filterMap (entryOf f)).find?
        (fun e => decide (base_key e.1 = b))) = none := by
      rw [List.find?_eq_none]
      intro x hx
      rw [List.mem_filterMap] at hx
      obtain ⟨r, hr, he⟩ := hx
      simp [hpre r hr x he]
    rw [hA, Option.none_or, List.filterMap_cons, h1, List.find?_cons]
    have hdk : decide (base_key (((k1, t1) : Str × Str)).1 = b) = true := by
      simp [hb1]
    rw [hdk]
    rfl

/-- Witness for C7 with no cleanup toggles: two rows with the duplicate full
key `"a1"` keep the first label, and two rows whose keys `"a1"` and `"a1x"`
share the base key `"a1"` keep the first label in the base mapping. -/
theorem buildMapping_first_write_wins_witness :
    alookup (buildMapping flagsAllOff false
        [(some (strL "a1"), some (strL "First")),
         (some (strL "a1"), some (strL "Second"))]).1 (strL "a1")
      = some (strL "First") ∧
    alookup (buildMapping flagsAllOff true
        [(some (strL "a1"), some (strL "First")),
         (some (strL "a1x"), some (strL "Second"))]).2 (strL "a1")
      = some (strL "First") :=
  ⟨buildMapping_first_write_wins.1 flagsAllOff false [] [] []
      (some (strL "a1"), some (strL "First"))
      (some (strL "a1"), some (strL "Second"))
      (strL "a1") (strL "First") (strL "Second")
      (by decide) (by decide) (fun r hr => absurd hr (List.not_mem_nil r)),
   buildMapping_first_write_wins.2 flagsAllOff [] [] []
      (some (strL "a1"), some (strL "First"))
      (some (strL "a1x"), some (strL "Second"))
      (strL "a1") (strL "a1x") (strL "First") (strL "Second") (strL "a1")
      (by decide) (by decide) (by decide) (by decide)
      (fun r hr => absurd hr (List.not_mem_nil r))⟩

/-- C8: the vectorized batch resolution equals the per-key two-tier lookup
(full mapping first, base mapping only on a miss with fallback enabled), and
the reported statistics satisfy `total = N`, `matched` = number of rows that
obtained a label from either tier, and `unmatched = total - matched`. -/
theorem resolveBatch_stats_spec (f : NormFlags) (ub : Bool)
    (m : KeyMap × KeyMap) (xs : List (Option Str)) :
    resolveBatch f ub m xs = xs.map (resolveKey f ub m) ∧
    (mergeStats f ub m xs).1 = xs.length ∧
    (mergeStats f ub m xs).2.1
      = (xs.filter (fun x => (resolveKey f ub m x).isSome)).length ∧
    (mergeStats f ub m xs).2.2
      = (mergeStats f ub m xs).1 - (mergeStats f ub m xs).2.1 := by
  have hmain : resolveBatch f ub m xs = xs.map (resolveKey f ub m) :=
    resolveBatch_eq_map f ub m xs
  refine ⟨hmain, rfl, ?_, rfl⟩
  show (resolveBatch f ub m xs).countP (fun o => o.isSome) = _
  rw [hmain, List.countP_map, List.countP_eq_length_filter]
  rfl

/-- C9 (counterexample): the claim predicts that `base_key` captures
uppercase letter prefixes and digit runs that are not adjacent to the
prefix; the code's anchored regex `([a-z]+)?(\d+)?` captures neither, so
`base_key "A1"` is empty (the spec-worded extraction gives `"A1"`) and
`base_key "ab.7"` is `"ab"` (the spec-worded extraction gives `"ab7"`). -/
theorem base_key_cex :
    base_key (strL "A1") = [] ∧
    specBaseKey (strL "A1") = strL "A1" ∧
    base_key (strL "A1") ≠ specBaseKey (strL "A1") ∧
    base_key (strL "ab.7") = strL "ab" ∧
    specBaseKey (strL "ab.7") = strL "ab7" := by
  decide

/-- C9 (amended): `base_key` equals the key's leading run of lowercase ASCII
letters concatenated with the contiguous digit run immediately following
that prefix; uppercase letters are not captured and a digit run separated
from the prefix is ignored (for example `base_key "x9y7" = "x9"`). -/
theorem base_key_spec :
    (∀ s : Str, base_key s
        = s.takeWhile Char.isLower
          ++ (s.dropWhile Char.isLower).takeWhile Char.isDigit) ∧
    base_key (strL "A1") = [] ∧
    base_key (strL "x9y7") = strL "x9" := by
  refine ⟨?_, by decide, by decide⟩
  intro s
  show s.takeWhile Char.isLower
      ++ (s.drop (s.takeWhile Char.isLower).length).takeWhile Char.isDigit
    = s.takeWhile Char.isLower ++ (s.dropWhile Char.isLower).takeWhile Char.isDigit
  rw [drop_length_takeWhile]

/-- C10: for every normalized key whose first character is neither a
lowercase ASCII letter nor a digit, `base_key` returns the empty string;
consequently, with fallback enabled, a source row with such a non-empty key
puts an empty-string entry into the base mapping, and any query key that
misses the full mapping and whose own base key is also empty resolves to
that row's label. -/
theorem base_key_empty_fallback (f : NormFlags) (raw tl : Str) (q : Option Str)
    (c : Char) (ks : Str)
    (hkey : norm_cell f (some raw) = c :: ks)
    (hlow : c.isLower = false) (hdig : c.isDigit = false)
    (hmiss : norm_cell f q ≠ c :: ks)
    (hqbase : base_key (norm_cell f q) = []) :
    base_key (c :: ks) = [] ∧
    alookup (buildMapping f true [(some raw, some tl)]).2 [] = some tl ∧
    resolveKey f true (buildMapping f true [(some raw, some tl)]) q = some tl := by
  have hbk : base_key (c :: ks) = [] := by
    simp [base_key, List.takeWhile_cons, hlow, hdig]
  have hentry : entryOf f (some raw, some tl) = some (c :: ks, tl) := by
    unfold entryOf
    simp [hkey]
  have hfold : buildMapping f true [(some raw, some tl)]
      = ([(c :: ks, tl)], [([], tl)]) := by
    unfold buildMapping
    rw [List.foldl_cons, List.foldl_nil]
    unfold buildStep
    rw [hentry]
    simp [setdefault, alookup, hbk]
  have hbase : alookup ([(c :: ks, tl)], [(([] : Str), tl)]).2 [] = some tl := by
    show alookup [(([] : Str), tl)] [] = some tl
    rw [alookup_cons]
    simp
  refine ⟨hbk, ?_, ?_⟩
  · rw [hfold]
    exact hbase
  · have h1 : alookup (buildMapping f true [(some raw, some tl)]).1
        (norm_cell f q) = none := by
      rw [hfold]
      show alookup [(c :: ks, tl)] (norm_cell f q) = none
      rw [alookup_cons, if_neg (fun h => hmiss h.symm)]
      rfl
    rw [resolveKey_miss f _ q h1, hqbase, hfold]
    exact hbase

/-- Witness for C10 with all cleanup toggles off: the source key `"-1"`
starts with `'-'`, its base key is empty, and the query `"+"` (sharing no
letters or digits with it) misses the full mapping but resolves to the
row's label through the empty base key. -/
theorem base_key_empty_fallback_witness :
    base_key (strL "-1") = [] ∧
    alookup (buildMapping flagsAllOff true
        [(some (strL "-1"), some (strL "T"))]).2 [] = some (strL "T") ∧
    resolveKey flagsAllOff true
        (buildMapping flagsAllOff true [(some (strL "-1"), some (strL "T"))])
        (some (strL "+")) = some (strL "T") := by
  have h := base_key_empty_fallback flagsAllOff (strL "-1") (strL "T")
    (some (strL "+")) '-' (strL "1")
    (by decide) (by decide) (by decide) (by decide) (by decide)
  exact ⟨h.1, h.2.1, h.2.2⟩

end DGB
